import Mathlib

/-!
Verification of the `expand` plugin engine
(`addons/kate/pate/src/plugins/expand/udf.py`).

The document model follows the KTextEditor interface consumed by the
plugin: a document is a list of lines, a position is a (line, column)
pair of integers, `character` yields `none` for any out-of-bounds read,
and `lineLength` yields `-1` for an invalid line index.
-/

deriving instance DecidableEq for Except

namespace Expand

/-- A line of document text, as a list of characters. -/
abbrev Line := List Char

/-- A document: the list of its lines. -/
abbrev Document := List Line

/-- A (line, column) position in a document, as in `KTextEditor.Cursor`.
Both coordinates are integers: the scanning code of the plugin moves
columns and lines below zero, relying on out-of-bounds reads returning
a sentinel. -/
structure Pos where
  line : Int
  column : Int
deriving DecidableEq, Repr

/-- The line at index `l`, or `none` when the index is invalid. -/
def Document.lineAt (doc : Document) (l : Int) : Option Line :=
  if 0 ≤ l then doc.get? l.toNat else none

/-- `document.character(position)`: the character at a position, `none`
for any out-of-bounds read (invalid line or invalid column). -/
def Document.character (doc : Document) (p : Pos) : Option Char :=
  match doc.lineAt p.line with
  | none => none
  | some line => if 0 ≤ p.column then line.get? p.column.toNat else none

/-- `document.lineLength(l)`: the length of line `l`, or `-1` when `l`
is not a valid line index (KTextEditor convention). -/
def Document.lineLength (doc : Document) (l : Int) : Int :=
  match doc.lineAt l with
  | none => -1
  | some line => (line.length : Int)

/-- The reason carried by a `ParseError` raised by
`matchingParenthesisPosition`: either `end of file reached` or
`end of line reached while searching for <quote>`. -/
inductive ParseReason where
  | endOfFile
  | endOfLine (quote : Char)
deriving DecidableEq, Repr

/-- The loop state of `matchingParenthesisPosition`: current scan
position, nesting `level`, and quote `state` (`none` when outside any
quoted span, `some q` while inside a span quoted by `q`). -/
structure MpConfig where
  pos : Pos
  level : Int
  state : Option Char
deriving DecidableEq, Repr

/-- Outcome of one iteration of the `while 1` loop of
`matchingParenthesisPosition`: the matching position was found, the
loop continues with a new configuration, or a `ParseError` is raised. -/
inductive MpStep where
  | found (p : Pos)
  | next (c : MpConfig)
  | fail (r : ParseReason)
deriving DecidableEq, Repr

/-- The character-processing part of one loop iteration of
`matchingParenthesisPosition` (lines 102-116 of `udf.py`): given the
character under the cursor (possibly `none` for out-of-bounds), the
nesting level and the quote state, produce the updated level, updated
quote state, and whether the matching delimiter was just found
(`level` returned to zero after a decrement). -/
def mpProcess (opening closing : Char) (character : Option Char)
    (level : Int) (state : Option Char) : Int × Option Char × Bool :=
  match state with
  | some q => if character = some q then (level, none, false) else (level, some q, false)
  | none =>
    if character = some opening then (level + 1, none, false)
    else if character = some closing then (level - 1, none, level - 1 = 0)
    else if character = some '"' ∨ character = some '\'' then (level, character, false)
    else (level, none, false)

/-- `position.setColumn(position.column() + delta)`. -/
def mpAdvance (p : Pos) (delta : Int) : Pos :=
  ⟨p.line, p.column + delta⟩

/-- The wrap to an adjacent line (lines 121-124 of `udf.py`):
`setPosition(line + delta, 0)`, and for a backward scan move to the far
right, `lineLength(line) - 1`, of the new line. -/
def mpWrap (doc : Document) (p : Pos) (delta : Int) : Pos :=
  ⟨p.line + delta, if delta = -1 then doc.lineLength (p.line + delta) - 1 else 0⟩

/-- One full iteration of the `while 1` loop of
`matchingParenthesisPosition` (lines 101-135 of `udf.py`): process the
character at the current position, stop with the found position
(advanced by `delta` when the closing delimiter is `)`), otherwise
advance the column by `delta`; when the advanced position holds no
character, wrap to the adjacent line, raising `end of file reached`
when the wrapped position holds no character either, and
`end of line reached ...` when the quote state is inside a quoted
span. -/
def mpStepFn (doc : Document) (opening closing : Char) (delta : Int)
    (cfg : MpConfig) : MpStep :=
  let character := doc.character cfg.pos
  match mpProcess opening closing character cfg.level cfg.state with
  | (level, st, fnd) =>
    if fnd then
      MpStep.found (if closing = ')' then mpAdvance cfg.pos delta else cfg.pos)
    else
      let p := mpAdvance cfg.pos delta
      if doc.character p = none then
        let w := mpWrap doc cfg.pos delta
        if doc.character w = none then MpStep.fail ParseReason.endOfFile
        else
          match st with
          | some q => MpStep.fail (ParseReason.endOfLine q)
          | none => MpStep.next ⟨w, level, none⟩
      else MpStep.next ⟨p, level, st⟩

/-- The fuelled `while 1` loop of `matchingParenthesisPosition`:
`none` when the fuel runs out (the source loop always terminates on a
finite document because the scan position strictly advances, so a fuel
of the document size suffices; the fuel only makes the recursion
structural). -/
def mpLoop (doc : Document) (opening closing : Char) (delta : Int) :
    MpConfig → Nat → Option (Except ParseReason Pos)
  | _, 0 => none
  | cfg, fuel + 1 =>
    match mpStepFn doc opening closing delta cfg with
    | MpStep.found p => some (Except.ok p)
    | MpStep.fail r => some (Except.error r)
    | MpStep.next c => mpLoop doc opening closing delta c fuel

/-- `matchingParenthesisPosition(document, position, opening)`
(lines 93-136 of `udf.py`): scan forward (`opening = '('`) or backward
(`opening = ')'`) for the matching delimiter, honouring quoted spans.
Returns `some (.ok p)` for a successful match, `some (.error r)` for a
`ParseError`, `none` when the fuel ran out. -/
def matchingParenthesisPosition (doc : Document) (position : Pos)
    (opening : Char) (fuel : Nat) : Option (Except ParseReason Pos) :=
  let closing := if opening = '(' then ')' else '('
  let delta : Int := if opening = '(' then 1 else -1
  mpLoop doc opening closing delta ⟨position, 0, none⟩ fuel

/-- A canonical fuel amount that is ample for any scan over `doc`. -/
def docFuel (doc : Document) : Nat :=
  doc.foldl (fun a line => a + line.length) 0 + doc.length + 4

/-- The configurations visited by the loop (including the one at which
it stops), cut off at `fuel` iterations. -/
def mpTrace (doc : Document) (opening closing : Char) (delta : Int) :
    MpConfig → Nat → List MpConfig
  | _, 0 => []
  | cfg, fuel + 1 =>
    cfg ::
      match mpStepFn doc opening closing delta cfg with
      | MpStep.next c => mpTrace doc opening closing delta c fuel
      | _ => []

/-- The configuration reached after `n` continuing iterations from
`cfg`, or `none` if the loop stopped (found/failed) strictly before. -/
def mpIter (doc : Document) (opening closing : Char) (delta : Int) :
    MpConfig → Nat → Option MpConfig
  | cfg, 0 => some cfg
  | cfg, n + 1 =>
    match mpStepFn doc opening closing delta cfg with
    | MpStep.next c => mpIter doc opening closing delta c n
    | _ => none

/-- A text range, as in `KTextEditor.Range`: a start and an end
position (`stop`, since `end` is a Lean keyword). -/
structure KRange where
  start : Pos
  stop : Pos
deriving DecidableEq, Repr

/-- Modelled from the spec: range validity as used by the cursor
locator on the word range produced by `libkatepate.common`'s word
lookup (not under `src/`) — "Returns an invalid (zero-width / unset)
word_range if no identifier characters touch the cursor", so a word
range is valid exactly when it is not zero-width. -/
def KRange.isValid (r : KRange) : Bool := r.start != r.stop

/-- Modelled from the spec: the fixed identifier-character predicate of
`libkatepate.common.IDENTIFIER_BOUNDARIES` (not under `src/`) —
"letters, digits, underscore". -/
def isIdentChar (c : Char) : Bool := c.isAlphanum || c = '_'

/-- Walk left from `col` over identifier characters (helper for the
spec-modelled word lookup). -/
def scanWordBack (line : Line) : Nat → Nat
  | 0 => 0
  | n + 1 => if (line.get? n).any isIdentChar then scanWordBack line n else n + 1

/-- Walk right from `col` over identifier characters (helper for the
spec-modelled word lookup). -/
def scanWordFwdAux : List Char → Nat → Nat
  | [], col => col
  | c :: rest, col => if isIdentChar c then scanWordFwdAux rest (col + 1) else col

/-- Walk right from `col` over identifier characters of `line`. -/
def scanWordFwd (line : Line) (col : Nat) : Nat :=
  scanWordFwdAux (line.drop col) col

/-- Modelled from the spec: `libkatepate.common.getBoundTextRangeSL`
with `IDENTIFIER_BOUNDARIES` on both sides (the function is not under
`src/`) — "find the maximal contiguous run of identifier characters
(letters, digits, underscore) touching the cursor, in both directions,
on the current line only". -/
def getBoundTextRangeSL (doc : Document) (cursor : Pos) : KRange :=
  let line := (doc.lineAt cursor.line).getD []
  let col := cursor.column.toNat
  ⟨⟨cursor.line, (scanWordBack line (min col line.length) : Int)⟩,
   ⟨cursor.line, (scanWordFwd line col : Int)⟩⟩

/-- Python string indexing `line[i]`: a negative index wraps around
once from the end; `none` models an `IndexError`. -/
def pyCharAt (line : Line) (i : Int) : Option Char :=
  if 0 ≤ i then line.get? i.toNat
  else if 0 ≤ (line.length : Int) + i then line.get? ((line.length : Int) + i).toNat
  else none

/-- Errors out of `wordAndArgumentAtCursorRanges`: a propagated
`ParseError` from the delimiter matcher, an uncaught Python
`IndexError` from raw string indexing, or fuel exhaustion of the
embedded scan loop. -/
inductive LocErr where
  | parse (r : ParseReason)
  | index
  | fuel
deriving DecidableEq, Repr

/-- Run the delimiter matcher, converting its result for use inside the
locator (a `ParseError` propagates to the caller). -/
def locMatch (doc : Document) (p : Pos) (opening : Char) (fuel : Nat) :
    Except LocErr Pos :=
  match matchingParenthesisPosition doc p opening fuel with
  | none => Except.error LocErr.fuel
  | some (Except.error r) => Except.error (LocErr.parse r)
  | some (Except.ok q) => Except.ok q

/-- `wordAndArgumentAtCursorRanges(document, cursor)` (lines 53-89 of
`udf.py`). The two special cases are sequential `if` statements (not
`elif`): the second one tests `line[cursor.column() - 1]` with the
cursor possibly already reassigned by the first, while `line` always
remains the line of the original cursor. -/
def wordAndArgumentAtCursorRanges (doc : Document) (cursor0 : Pos) :
    Except LocErr (KRange × Option KRange) := do
  let line := (doc.lineAt cursor0.line).getD []
  let fuel := docFuel doc
  let mut argument_range : Option KRange := none
  let mut cursor := cursor0
  if cursor.column > 0 then
    if cursor.column < (line.length : Int) ∧ line.get? cursor.column.toNat = some ')' then
      let argument_end := Pos.mk cursor.line cursor.column
      let argument_start ← locMatch doc argument_end ')' fuel
      argument_range := some ⟨argument_start, ⟨argument_end.line, argument_end.column + 1⟩⟩
      cursor := argument_start
    match pyCharAt line (cursor.column - 1) with
    | none => throw LocErr.index
    | some ch =>
      if ch = ')' then
        let argument_end := Pos.mk cursor.line (cursor.column - 1)
        let argument_start ← locMatch doc argument_end ')' fuel
        argument_range := some ⟨argument_start, ⟨argument_end.line, argument_end.column + 1⟩⟩
        cursor := argument_start
  let word_range := getBoundTextRangeSL doc cursor
  let e := word_range.stop.column
  if argument_range = none ∧ word_range.isValid then
    if e < (line.length : Int) ∧ line.get? e.toNat = some '(' then
      let argument_start := Pos.mk cursor.line e
      let argument_end ← locMatch doc argument_start '(' fuel
      argument_range := some ⟨argument_start, argument_end⟩
  return (word_range, argument_range)

/-- The characters of `line` whose index lies in `[a, b)`. -/
def sliceLine (line : Line) (a b : Int) : List Char :=
  (line.enum.filter (fun p => a ≤ (p.1 : Int) ∧ (p.1 : Int) < b)).map Prod.snd

/-- `document.text(range)`: the text covered by a range, with `\n`
joining lines for a multi-line range; empty for a reversed range. -/
def Document.textOf (doc : Document) (r : KRange) : List Char :=
  if r.start.line = r.stop.line then
    sliceLine ((doc.lineAt r.start.line).getD []) r.start.column r.stop.column
  else if r.start.line < r.stop.line then
    let first := (doc.lineAt r.start.line).getD []
    let rest :=
      (List.range (r.stop.line - r.start.line).toNat).map
        (fun i =>
          let l := r.start.line + 1 + (i : Int)
          let li := (doc.lineAt l).getD []
          if l = r.stop.line then sliceLine li 0 r.stop.column else li)
    sliceLine first r.start.column (first.length : Int) ++
      (rest.map (fun m => '\n' :: m)).flatten
  else []

/-! ### Expansion registry (`mergeExpansions`, `_getExpansionsFor`,
`getExpansionsFor`, lines 158-189 of `udf.py`).

An expansion mapping is an association list from expansion name to the
tuple `(callable, source path)`; the callable is abstracted by a type
parameter.  The merge also returns the log of "Ignore duplicate
expansion" warnings: one `(name, losing path)` record per ignored
entry. -/

/-- An expansion mapping: name to `(callable, source path)`. -/
abbrev ExpDict (α : Type) := List (String × α × String)

/-- Association-list lookup, first binding wins (Python `dict`
membership/subscript). -/
def dictLookup (k : String) : ExpDict α → Option (α × String)
  | [] => none
  | kv :: rest => if kv.1 = k then some kv.2 else dictLookup k rest

/-- `mergeExpansions(left, right)` (lines 158-168 of `udf.py`): fold
`right`'s entries into `left`; an entry whose key is already present is
kept as-is (`result[exp_key] = result[exp_key]`) and the loser is only
logged.  Returns the merged mapping and the log of ignored entries. -/
def mergeExpansions (left right : ExpDict α) :
    ExpDict α × List (String × String) :=
  right.foldl
    (fun acc kv =>
      match dictLookup kv.1 acc.1 with
      | none => (acc.1 ++ [kv], acc.2)
      | some _ => (acc.1, acc.2 ++ [(kv.1, kv.2.2)]))
    (left, [])

/-- `_getExpansionsFor(mime)` (lines 171-181 of `udf.py`): fold the
per-directory expansion files (in `kate.applicationDirectories` order)
with `mergeExpansions`; `none` stands for a directory where
`os.path.exists` fails for the mime's file name, `some d` for the
mapping `loadExpansionsFromFile` returns there. -/
def getExpansionsForDirs (dirs : List (Option (ExpDict α))) : ExpDict α :=
  dirs.foldl
    (fun expansions d =>
      match d with
      | none => expansions
      | some dict => (mergeExpansions expansions dict).1)
    []

/-- `getExpansionsFor(mime)` (lines 184-189 of `udf.py`): merge the
mime-specific expansions with the wildcard `'all'` expansions, the
mime-specific mapping on the left. -/
def getExpansionsFor (mimeDirs allDirs : List (Option (ExpDict α))) : ExpDict α :=
  (mergeExpansions (getExpansionsForDirs mimeDirs) (getExpansionsForDirs allDirs)).1

/-! ### Argument parsing and the invocation pipeline
(`expandAtCursor`, lines 249-393 of `udf.py`). -/

/-- Python `str.split(sep)` for a one-character separator: split at
every occurrence, keeping empty pieces. -/
def pySplit (sep : Char) : List Char → List (List Char)
  | [] => [[]]
  | c :: rest =>
    if c = sep then [] :: pySplit sep rest
    else
      match pySplit sep rest with
      | t :: ts => (c :: t) :: ts
      | [] => [[c]]

/-- Python `str.strip()`: drop whitespace from both ends. -/
def pyStrip (s : List Char) : List Char :=
  ((s.dropWhile Char.isWhitespace).reverse.dropWhile Char.isWhitespace).reverse

/-- Python `dict` assignment `d[k] = v`: overwrite the existing binding
or append a new one. -/
def dictAssign (k v : List Char) :
    List (List Char × List Char) → List (List Char × List Char)
  | [] => [(k, v)]
  | kv :: rest => if kv.1 = k then (k, v) :: rest else kv :: dictAssign k v rest

/-- The argument-parsing block of `expandAtCursor` (lines 277-286 of
`udf.py`), on the raw text of the argument range: strip the enclosing
parentheses (`text[1:-1]`), split on every comma, strip each piece and
drop empty ones; a piece containing `=` is split on `=` into exactly a
key and a value (any other arity raises an uncaught `ValueError`,
modelled as `Except.error`), others are positional. -/
def parseArguments (text : List Char) :
    Except Unit (List (List Char) × List (List Char × List Char)) := do
  let preArgs := ((pySplit ',' ((text.drop 1).dropLast)).map pyStrip).filter
    (fun arg => ¬ arg.isEmpty)
  let mut arguments : List (List Char) := []
  let mut namedArgs : List (List Char × List Char) := []
  for arg in preArgs do
    if arg.contains '=' then
      match (pySplit '=' arg).map pyStrip with
      | [key, value] => namedArgs := dictAssign key value namedArgs
      | _ => throw ()
    else
      arguments := arguments ++ [arg]
  return (arguments, namedArgs)

/-- A value returned by an expansion callable: literal text, or a
mapping (the context data for a template). -/
inductive Val where
  | str (s : List Char)
  | dict (entries : List (List Char × List Char))
deriving DecidableEq, Repr

/-- `isinstance(replacement, dict)`. -/
def Val.isDict : Val → Bool
  | Val.dict _ => true
  | Val.str _ => false

/-- An expansion callable together with its optional ad hoc attributes:
`call args namedArgs` is `none` when the callable raises;
`template` models the `template` attribute (`hasattr(func, 'template')`);
`use_template_iface` the equally named flag attribute. -/
structure ExpFunc where
  call : List (List Char) → List (List Char × List Char) → Option Val
  template : Option (List Char)
  use_template_iface : Bool

/-- The host-side collaborators consumed by `expandAtCursor`: the
active document and cursor, the merged expansion mapping for the
document's mime type (`getExpansionsFor(document.mimeType())`),
`kate.findApplicationResource`, the Jinja environment/template
rendering (`basedir → relative template path → context → text`), and
whether `view.templateInterface2()` is non-null. -/
structure Env where
  doc : Document
  cursor : Pos
  expansions : List Char → Option ExpFunc
  findResource : List Char → Option (List Char)
  render : List Char → List Char → Val → Except Unit (List Char)
  ti2 : Bool

/-- The kind of popup `expandAtCursor` reports an error with. -/
inductive PopupKind where
  | parseError
  | notFound
  | invokeError
  | templateNotFound
  | templateError
deriving DecidableEq, Repr

/-- Observable side effects of one `expandAtCursor` run, in order:
error popups, the atomic-undo scope, and the buffer mutations. -/
inductive Effect where
  | popup (k : PopupKind)
  | beginAtomic
  | removeText (r : KRange)
  | insertText (p : Pos) (t : Val)
  | insertTemplateText (p : Pos) (t : Val)
  | endAtomic
deriving DecidableEq, Repr

/-- Whether an effect mutates the buffer. -/
def Effect.isEdit : Effect → Bool
  | Effect.removeText _ => true
  | Effect.insertText _ _ => true
  | Effect.insertTemplateText _ _ => true
  | _ => false

/-- How one `expandAtCursor` run ended: the expansion was applied, the
run aborted through an error popup, a Python exception propagated
uncaught (failed `assert`, argument-unpack `ValueError`, `IndexError`),
or the embedded scan fuel ran out. -/
inductive Outcome where
  | completed
  | aborted
  | uncaught
  | outOfFuel
deriving DecidableEq, Repr

/-- Python `str.find(sub)` helper carrying the current index. -/
def pyFindAux (sub : List Char) : List Char → Nat → Int
  | s, i =>
    if s.take sub.length = sub then (i : Int)
    else
      match s with
      | [] => -1
      | _ :: rest => pyFindAux sub rest (i + 1)

/-- Python `str.find(sub)`: index of the first occurrence, `-1` when
absent. -/
def pyFind (s sub : List Char) : Int := pyFindAux sub s 0

/-- `_JINJA_TEMPLATES_BASE_DIR = os.path.join('expand', 'templates')`. -/
def jinjaTemplatesBaseDir : List Char := "expand/templates".data

/-- The final atomic edit of `expandAtCursor` (lines 373-393 of
`udf.py`): inside one atomic-undo scope, remove the argument range (if
any), remove the word range, then insert the replacement at the word
start — through `TemplateInterface2` when the callable requests it and
the view provides it, as plain text otherwise. -/
def applyEdit (env : Env) (func : ExpFunc) (word_range : KRange)
    (argument_range : Option KRange) (replacement : Val) :
    List Effect × Outcome :=
  ([Effect.beginAtomic] ++
    (match argument_range with
     | some r => [Effect.removeText r]
     | none => []) ++
    [Effect.removeText word_range] ++
    (if func.use_template_iface && env.ti2 then
       [Effect.insertTemplateText word_range.start replacement]
     else
       [Effect.insertText word_range.start replacement]) ++
    [Effect.endAtomic],
   Outcome.completed)

/-- The template path of `expandAtCursor` (lines 336-371 of `udf.py`):
locate the template file via `kate.findApplicationResource` (popup and
abort when missing), split the resulting path at
`_JINJA_TEMPLATES_BASE_DIR` (a failed `assert` if absent), render, and
popup-and-abort on a `jinja2.TemplateError`. -/
def templateBranch (env : Env) (func : ExpFunc) (word_range : KRange)
    (argument_range : Option KRange) (replacement : Val) (tname : List Char) :
    List Effect × Outcome :=
  match env.findResource (jinjaTemplatesBaseDir ++ '/' :: tname) with
  | none => ([Effect.popup PopupKind.templateNotFound], Outcome.aborted)
  | some filename =>
    let base_dir_pos := pyFind filename jinjaTemplatesBaseDir
    if base_dir_pos = -1 then ([], Outcome.uncaught)
    else
      let basedir := filename.take (base_dir_pos + (jinjaTemplatesBaseDir.length : Int)).toNat
      let rel := filename.drop (base_dir_pos + (jinjaTemplatesBaseDir.length : Int) + 1).toNat
      match env.render basedir rel replacement with
      | Except.error _ => ([Effect.popup PopupKind.templateError], Outcome.aborted)
      | Except.ok text => applyEdit env func word_range argument_range (Val.str text)

/-- The tail of `expandAtCursor` after the callable returned
(lines 333-393 of `udf.py`): when the callable carries a `template`
attribute, `assert(isinstance(replacement, dict))` (a non-mapping value
fails the bare assertion, which propagates uncaught) and take the
template path; otherwise apply the returned value directly. -/
def afterInvoke (env : Env) (func : ExpFunc) (word_range : KRange)
    (argument_range : Option KRange) (replacement : Val) :
    List Effect × Outcome :=
  match func.template with
  | some tname =>
    if replacement.isDict then
      templateBranch env func word_range argument_range replacement tname
    else ([], Outcome.uncaught)
  | none => applyEdit env func word_range argument_range replacement

/-- `expandAtCursor()` (lines 249-393 of `udf.py`) as the list of its
observable effects plus its outcome: locate word and arguments (popup
and abort on `ParseError`), resolve the expansion (popup and abort when
absent), parse the arguments, invoke the callable (popup and abort when
it raises), then render/apply via `afterInvoke`. -/
def expandAtCursor (env : Env) : List Effect × Outcome :=
  match wordAndArgumentAtCursorRanges env.doc env.cursor with
  | Except.error (LocErr.parse _) => ([Effect.popup PopupKind.parseError], Outcome.aborted)
  | Except.error LocErr.index => ([], Outcome.uncaught)
  | Except.error LocErr.fuel => ([], Outcome.outOfFuel)
  | Except.ok (word_range, argument_range) =>
    let word := env.doc.textOf word_range
    match env.expansions word with
    | none => ([Effect.popup PopupKind.notFound], Outcome.aborted)
    | some func =>
      match (match argument_range with
             | some r => parseArguments (env.doc.textOf r)
             | none => Except.ok ([], [])) with
      | Except.error _ => ([], Outcome.uncaught)
      | Except.ok (arguments, namedArgs) =>
        match (if namedArgs.length ≠ 0 then func.call arguments namedArgs
               else func.call arguments []) with
        | none => ([Effect.popup PopupKind.invokeError], Outcome.aborted)
        | some replacement => afterInvoke env func word_range argument_range replacement

/-- The safety contract of one `expandAtCursor` run: a run that did not
complete performed no buffer mutation at all, and a completed run's
effect list is exactly one atomic-undo scope, opened first, holding
nothing but buffer mutations. -/
def EditSafe (e : List Effect × Outcome) : Prop :=
  (e.2 ≠ Outcome.completed → e.1.filter Effect.isEdit = []) ∧
  (e.2 = Outcome.completed →
    ∃ mid, e.1 = Effect.beginAtomic :: mid ++ [Effect.endAtomic] ∧ mid.all Effect.isEdit)

/-- Whether the next line-wrap of the scan, from configuration `cfg`,
runs past the last (forward) or first (backward) line of the document:
the advanced position holds no character and the wrap target line index
is outside the document. -/
def stepRanPastEnds (doc : Document) (delta : Int) (cfg : MpConfig) : Bool :=
  (doc.character (mpAdvance cfg.pos delta)).isNone &&
    (decide (cfg.pos.line + delta < 0) || decide ((doc.length : Int) ≤ cfg.pos.line + delta))

/-- Whether, at configuration `cfg`, the current line ends (the
advanced position holds no character) while the quote state — after
processing the current character — is inside a quoted span. -/
def stepEndsLineInQuote (doc : Document) (opening closing : Char) (delta : Int)
    (cfg : MpConfig) : Bool :=
  (doc.character (mpAdvance cfg.pos delta)).isNone &&
    (mpProcess opening closing (doc.character cfg.pos) cfg.level cfg.state).2.1.isSome

end Expand


namespace Expand

/-! ## Theorems for the claims -/

lemma pySplit_ne_nil (sep : Char) : ∀ s : List Char, pySplit sep s ≠ []
  | [] => by simp [pySplit]
  | c :: rest => by
    simp only [pySplit]
    split
    · simp
    · rcases h : pySplit sep rest with _ | ⟨t, ts⟩ <;> simp

lemma pySplit_append_sep (sep : Char) (a b : List Char) :
    pySplit sep (a ++ sep :: b) = pySplit sep a ++ pySplit sep b := by
  induction a with
  | nil => simp [pySplit]
  | cons c rest ih =>
    rcases hr : pySplit sep rest with _ | ⟨t, ts⟩
    · exact absurd hr (pySplit_ne_nil sep rest)
    by_cases h : c = sep
    · simp only [List.cons_append, pySplit, if_pos h]
      simp [ih]
    · simp only [List.cons_append, pySplit, if_neg h, List.append_eq]
      rw [ih, hr]
      simp

/-- C7: argument parsing of the raw text `(a, b=2, c = 3)` yields
exactly the positional list `["a"]` and the keyword mapping
`{"b": "2", "c": "3"}`, with values kept as strings; a second input
witnesses whitespace-trimming and the dropping of empty items. -/
theorem C7_argument_parsing :
    parseArguments "(a, b=2, c = 3)".data =
      Except.ok (["a".data], [("b".data, "2".data), ("c".data, "3".data)]) ∧
    parseArguments "( , a=1, b )".data =
      Except.ok (["b".data], [("a".data, "1".data)]) := by
  exact ⟨by decide, by decide⟩

/-- C8 counterexample: a comma inside a nested parenthesized group, or
inside a quoted string, IS a split point for the argument splitter —
`(f(a,b), c)` parses to positional `["f(a", "b)", "c"]`, not to
`["f(a,b)", "c"]` as the claim would require. -/
theorem C8_counterexample :
    parseArguments "(f(a,b), c)".data =
      Except.ok (["f(a".data, "b)".data, "c".data], []) ∧
    (["f(a".data, "b)".data, "c".data] ≠ ["f(a,b)".data, "c".data]) ∧
    parseArguments "(\"a,b\", c)".data =
      Except.ok (["\"a".data, "b\"".data, "c".data], []) := by
  exact ⟨by decide, by decide, by decide⟩

/-- C8 (amended): the split of the inner text into argument items is a
plain character split — every comma is a split point, regardless of
quoting or nesting inside the items (balancing awareness exists only in
locating the argument-list boundaries). -/
theorem C8_every_comma_splits (a b : List Char) :
    pySplit ',' (a ++ ',' :: b) = pySplit ',' a ++ pySplit ',' b :=
  pySplit_append_sep ',' a b

/-- C5 counterexample: on the line `f()()` with the cursor at column 4,
the `character at the cursor is )` case applies (its guard holds), it
reseats the cursor at the matching `(` of column 3, and then the
`cursor just past a closing paren` case applies as well — its guard
`line[cursor.column() - 1] == ')'` holds at the reseated cursor — and
overwrites the argument range: the locator returns the first group
`(0,1)-(0,3)`, not the range `(0,3)-(0,5)` of the group the cursor is
in. The two cases are therefore not mutually exclusive. -/
theorem C5_counterexample :
    ((0 : Int) < 4 ∧ (4 : Int) < ("f()()".data.length : Int) ∧
      "f()()".data.get? 4 = some ')') ∧
    matchingParenthesisPosition ["f()()".data] ⟨0, 4⟩ ')' (docFuel ["f()()".data]) =
      some (Except.ok ⟨0, 3⟩) ∧
    pyCharAt "f()()".data (3 - 1) = some ')' ∧
    wordAndArgumentAtCursorRanges ["f()()".data] ⟨0, 4⟩ =
      Except.ok (⟨⟨0, 0⟩, ⟨0, 1⟩⟩, some ⟨⟨0, 1⟩, ⟨0, 3⟩⟩) ∧
    some (⟨⟨0, 1⟩, ⟨0, 3⟩⟩ : KRange) ≠ some (⟨⟨0, 3⟩, ⟨0, 5⟩⟩ : KRange) := by
  refine ⟨by decide, by decide, by decide, by decide, by decide⟩

/-- C5 (amended): the two special cases are sequential (non-exclusive)
checks — the `cursor just past a closing paren` check runs after, and
sees the cursor possibly reassigned by, the `character at the cursor is
)` check, so both can fire with the second overwriting the first's
argument range (witnessed on `f()()` at column 4); the claim's example
still holds: a cursor exactly one character past the closing `)` in
`foo() ` resolves the same word and argument ranges as a cursor at
`f`. -/
theorem C5_sequential_cases :
    wordAndArgumentAtCursorRanges ["foo() ".data] ⟨0, 5⟩ =
      Except.ok (⟨⟨0, 0⟩, ⟨0, 3⟩⟩, some ⟨⟨0, 3⟩, ⟨0, 5⟩⟩) ∧
    wordAndArgumentAtCursorRanges ["foo() ".data] ⟨0, 0⟩ =
      Except.ok (⟨⟨0, 0⟩, ⟨0, 3⟩⟩, some ⟨⟨0, 3⟩, ⟨0, 5⟩⟩) ∧
    wordAndArgumentAtCursorRanges ["f()()".data] ⟨0, 4⟩ =
      Except.ok (⟨⟨0, 0⟩, ⟨0, 1⟩⟩, some ⟨⟨0, 1⟩, ⟨0, 3⟩⟩) := by
  exact ⟨by decide, by decide, by decide⟩

/-- C4: for every cursor position inside the identifier `foo` of the
line `xx foo(1, bar=2) yy` (columns 3 to 5), the locator returns the
word range spanning `foo` (columns 3-6) and the argument range spanning
`(1, bar=2)` inclusive of both parentheses (column 6 to one past the
closing parenthesis, column 16), the latter computed by matching
forward from the `(` at column 6. -/
theorem C4_locator_on_foo_call (c : Int) (h1 : 3 ≤ c) (h2 : c ≤ 5) :
    wordAndArgumentAtCursorRanges ["xx foo(1, bar=2) yy".data] ⟨0, c⟩ =
      Except.ok (⟨⟨0, 3⟩, ⟨0, 6⟩⟩, some ⟨⟨0, 6⟩, ⟨0, 16⟩⟩) ∧
    matchingParenthesisPosition ["xx foo(1, bar=2) yy".data] ⟨0, 6⟩ '('
        (docFuel ["xx foo(1, bar=2) yy".data]) =
      some (Except.ok ⟨0, 16⟩) := by
  interval_cases c
  · exact ⟨by decide, by decide⟩
  · exact ⟨by decide, by decide⟩
  · exact ⟨by decide, by decide⟩

/-- C4 witness: the theorem applied at column 4. -/
theorem C4_witness :
    wordAndArgumentAtCursorRanges ["xx foo(1, bar=2) yy".data] ⟨0, 4⟩ =
      Except.ok (⟨⟨0, 3⟩, ⟨0, 6⟩⟩, some ⟨⟨0, 6⟩, ⟨0, 16⟩⟩) :=
  (C4_locator_on_foo_call 4 (by decide) (by decide)).1

end Expand

namespace Expand

/-- C2: in the delimiter matcher, a configuration inside a quoted span
never counts a delimiter toward the nesting level — one loop iteration
from a quoted state can neither find the match nor change the level
(the quote only toggles off on the same quote character) — and,
concretely, matching the outer `(` of `foo("a)b", c)` lands on the
final `)` at column 12 (the scan returns the position one past it),
not on the `)` at column 6 inside the string literal. -/
theorem C2_quoted_delimiters_not_counted :
    (∀ (doc : Document) (opening closing : Char) (delta : Int) (cfg : MpConfig) (q : Char),
      cfg.state = some q →
        (∀ p, mpStepFn doc opening closing delta cfg ≠ MpStep.found p) ∧
        (∀ c', mpStepFn doc opening closing delta cfg = MpStep.next c' →
          c'.level = cfg.level)) ∧
    matchingParenthesisPosition ["foo(\"a)b\", c)".data] ⟨0, 3⟩ '(' 30 =
      some (Except.ok ⟨0, 13⟩) ∧
    Document.character ["foo(\"a)b\", c)".data] ⟨0, 12⟩ = some ')' ∧
    (⟨0, 13⟩ : Pos) = mpAdvance ⟨0, 12⟩ 1 ∧
    Document.character ["foo(\"a)b\", c)".data] ⟨0, 6⟩ = some ')' ∧
    mpAdvance ⟨0, 6⟩ 1 ≠ (⟨0, 13⟩ : Pos) := by
  refine ⟨?_, by decide, by decide, by decide, by decide, by decide⟩
  intro doc opening closing delta cfg q hq
  obtain ⟨pos, level, state⟩ := cfg
  simp only at hq
  subst hq
  constructor
  · intro p h
    by_cases hc : doc.character pos = some q <;>
      simp only [mpStepFn, mpProcess, hc] at h <;>
      split_ifs at h <;> simp_all
  · intro c' h
    by_cases hc : doc.character pos = some q <;>
      simp only [mpStepFn, mpProcess, hc] at h <;>
      split_ifs at h <;> (try cases h) <;> simp_all

/-- C2 witness: the step-level part applied to a concrete quoted
configuration. -/
theorem C2_witness :
    (∀ p, mpStepFn ["a)".data] '(' ')' 1 ⟨⟨0, 0⟩, 5, some '"'⟩ ≠ MpStep.found p) ∧
    (∀ c', mpStepFn ["a)".data] '(' ')' 1 ⟨⟨0, 0⟩, 5, some '"'⟩ = MpStep.next c' →
      c'.level = (5 : Int)) :=
  C2_quoted_delimiters_not_counted.1 ["a)".data] '(' ')' 1 ⟨⟨0, 0⟩, 5, some '"'⟩ '"' rfl

lemma dictLookup_append {α : Type} (k : String) (xs ys : ExpDict α) :
    dictLookup k (xs ++ ys) = (dictLookup k xs).orElse (fun _ => dictLookup k ys) := by
  induction xs with
  | nil => simp [dictLookup]
  | cons kv rest ih =>
    by_cases h : kv.1 = k <;> simp [dictLookup, h, ih]

lemma mergeExpansions_foldl_lookup {α : Type} (k : String) :
    ∀ (r : ExpDict α) (acc : ExpDict α × List (String × String)),
      dictLookup k
          (r.foldl
            (fun acc kv =>
              match dictLookup kv.1 acc.1 with
              | none => (acc.1 ++ [kv], acc.2)
              | some _ => (acc.1, acc.2 ++ [(kv.1, kv.2.2)]))
            acc).1 =
        (dictLookup k acc.1).orElse (fun _ => dictLookup k r)
  | [], acc => by simp [dictLookup]
  | kv :: r, acc => by
    rw [List.foldl_cons, mergeExpansions_foldl_lookup k r]
    rcases hl : dictLookup kv.1 acc.1 with _ | v
    · simp only [hl, dictLookup_append]
      by_cases h : kv.1 = k
      · subst h
        simp [dictLookup, hl]
      · simp [dictLookup, h]
    · simp only [hl]
      by_cases h : kv.1 = k
      · subst h
        simp [dictLookup, hl]
      · simp [dictLookup, h]

/-- Lookup in a merged mapping: the left mapping's binding wins, the
right mapping is consulted only for keys absent on the left. -/
lemma mergeExpansions_lookup {α : Type} (l r : ExpDict α) (k : String) :
    dictLookup k (mergeExpansions l r).1 =
      (dictLookup k l).orElse (fun _ => dictLookup k r) := by
  unfold mergeExpansions
  exact mergeExpansions_foldl_lookup k r (l, [])

lemma mergeExpansions_log_mono {α : Type} :
    ∀ (r : ExpDict α) (acc : ExpDict α × List (String × String)) (x : String × String),
      x ∈ acc.2 →
      x ∈ (r.foldl
            (fun acc kv =>
              match dictLookup kv.1 acc.1 with
              | none => (acc.1 ++ [kv], acc.2)
              | some _ => (acc.1, acc.2 ++ [(kv.1, kv.2.2)]))
            acc).2
  | [], acc, x, hx => hx
  | kv :: r, acc, x, hx => by
    rw [List.foldl_cons]
    rcases hl : dictLookup kv.1 acc.1 with _ | v
    · exact mergeExpansions_log_mono r _ x (by simpa using hx)
    · exact mergeExpansions_log_mono r _ x (by simp [hx])

lemma mergeExpansions_logs_duplicates {α : Type} :
    ∀ (r : ExpDict α) (acc : ExpDict α × List (String × String)) (kv : String × α × String),
      kv ∈ r → (dictLookup kv.1 acc.1).isSome →
      (kv.1, kv.2.2) ∈ (r.foldl
            (fun acc kv =>
              match dictLookup kv.1 acc.1 with
              | none => (acc.1 ++ [kv], acc.2)
              | some _ => (acc.1, acc.2 ++ [(kv.1, kv.2.2)]))
            acc).2
  | [], acc, kv, hm, _ => by cases hm
  | a :: r, acc, kv, hm, hs => by
    rw [List.foldl_cons]
    rcases List.mem_cons.mp hm with rfl | hm'
    · rcases hl : dictLookup kv.1 acc.1 with _ | v
      · rw [hl] at hs
        cases hs
      · exact mergeExpansions_log_mono r _ _ (by simp)
    · rcases hl : dictLookup a.1 acc.1 with _ | v
      · refine mergeExpansions_logs_duplicates r _ kv hm' ?_
        simp only [dictLookup_append]
        rcases h : dictLookup kv.1 acc.1 with _ | w
        · rw [h] at hs
          cases hs
        · simp [h]
      · exact mergeExpansions_logs_duplicates r _ kv hm' hs

lemma getExpansionsForDirs_preserves {α : Type} (k : String) (v : α × String) :
    ∀ (dirs : List (Option (ExpDict α))) (acc : ExpDict α),
      dictLookup k acc = some v →
      dictLookup k
          (dirs.foldl
            (fun expansions d =>
              match d with
              | none => expansions
              | some dict => (mergeExpansions expansions dict).1)
            acc) = some v
  | [], acc, h => h
  | none :: dirs, acc, h => by
    rw [List.foldl_cons]
    exact getExpansionsForDirs_preserves k v dirs acc h
  | some d :: dirs, acc, h => by
    rw [List.foldl_cons]
    refine getExpansionsForDirs_preserves k v dirs _ ?_
    rw [mergeExpansions_lookup, h]
    rfl

/-- C6: merging expansion mappings is first-registration-wins — an
entry already present on the (earlier-loaded) left is kept unchanged
through the merge, a key absent on the left is taken from the right,
every losing later entry is recorded in the duplicate log (and nothing
is raised: the merge is total); since `getExpansionsFor` merges the
type-specific mapping on the left of the wildcard `"all"` mapping,
type-specific entries take precedence, and within a directory scan the
first-scanned directory's entry wins. -/
theorem C6_merge_first_wins {α : Type} :
    (∀ (l r : ExpDict α) (k : String) (v : α × String),
      dictLookup k l = some v → dictLookup k (mergeExpansions l r).1 = some v) ∧
    (∀ (l r : ExpDict α) (k : String),
      dictLookup k l = none → dictLookup k (mergeExpansions l r).1 = dictLookup k r) ∧
    (∀ (l r : ExpDict α) (kv : String × α × String),
      kv ∈ r → (dictLookup kv.1 l).isSome → (kv.1, kv.2.2) ∈ (mergeExpansions l r).2) ∧
    (∀ (mimeDirs allDirs : List (Option (ExpDict α))) (k : String) (v : α × String),
      dictLookup k (getExpansionsForDirs mimeDirs) = some v →
      dictLookup k (getExpansionsFor mimeDirs allDirs) = some v) ∧
    (∀ (d : ExpDict α) (rest : List (Option (ExpDict α))) (k : String) (v : α × String),
      dictLookup k d = some v →
      dictLookup k (getExpansionsForDirs (some d :: rest)) = some v) := by
  refine ⟨?_, ?_, ?_, ?_, ?_⟩
  · intro l r k v h
    rw [mergeExpansions_lookup, h]
    rfl
  · intro l r k h
    rw [mergeExpansions_lookup, h]
    rfl
  · intro l r kv hm hs
    exact mergeExpansions_logs_duplicates r (l, []) kv hm hs
  · intro mimeDirs allDirs k v h
    unfold getExpansionsFor
    rw [mergeExpansions_lookup, h]
    rfl
  · intro d rest k v h
    unfold getExpansionsForDirs
    rw [List.foldl_cons]
    refine getExpansionsForDirs_preserves k v rest _ ?_
    rw [mergeExpansions_lookup]
    simp [dictLookup, h]

/-- C6 witness: two conflicting `date` entries — the first directory's
entry wins, the loser is logged. -/
theorem C6_witness :
    dictLookup "date"
        (getExpansionsForDirs
          [some [("date", (1, "dir1/file"))], some [("date", (2, "dir2/file"))]]) =
      some ((1 : Nat), "dir1/file") ∧
    ("date", "dir2/file") ∈
      (mergeExpansions [("date", ((1 : Nat), "dir1/file"))] [("date", (2, "dir2/file"))]).2 := by
  constructor
  · exact C6_merge_first_wins.2.2.2.2 [("date", (1, "dir1/file"))]
      [some [("date", (2, "dir2/file"))]] "date" (1, "dir1/file") (by decide)
  · exact C6_merge_first_wins.2.2.1 [("date", ((1 : Nat), "dir1/file"))]
      [("date", (2, "dir2/file"))] ("date", (2, "dir2/file")) (by simp) (by decide)

/-- C10: when the matched callable carries a template declaration, the
returned value is guarded by the bare `assert(isinstance(replacement,
dict))`: a mapping passes the assertion and execution proceeds to the
template lookup (the `templateBranch` starting with the resource
search), while a non-mapping return makes the run end as an uncaught
`AssertionError` — with no effects at all: no buffer mutation and no
error popup. -/
theorem C10_template_dict_assert (env : Env) (func : ExpFunc) (wr : KRange)
    (ar : Option KRange) (v : Val) (t : List Char)
    (ht : func.template = some t) :
    (v.isDict = true →
      afterInvoke env func wr ar v = templateBranch env func wr ar v t) ∧
    (v.isDict = false →
      afterInvoke env func wr ar v = ([], Outcome.uncaught)) := by
  constructor <;> intro h <;> simp [afterInvoke, ht, h]

/-- C10 witness: the theorem applied to a concrete environment and
callable, on a mapping and on a plain-text return value. -/
theorem C10_witness :
    (afterInvoke
        ⟨["x".data], ⟨0, 0⟩, fun _ => none, fun _ => none, fun _ _ _ => Except.error (), false⟩
        ⟨fun _ _ => some (Val.dict []), some "t.tmpl".data, false⟩
        ⟨⟨0, 0⟩, ⟨0, 1⟩⟩ none (Val.dict [("k".data, "v".data)]) =
      templateBranch
        ⟨["x".data], ⟨0, 0⟩, fun _ => none, fun _ => none, fun _ _ _ => Except.error (), false⟩
        ⟨fun _ _ => some (Val.dict []), some "t.tmpl".data, false⟩
        ⟨⟨0, 0⟩, ⟨0, 1⟩⟩ none (Val.dict [("k".data, "v".data)]) "t.tmpl".data) ∧
    (afterInvoke
        ⟨["x".data], ⟨0, 0⟩, fun _ => none, fun _ => none, fun _ _ _ => Except.error (), false⟩
        ⟨fun _ _ => some (Val.dict []), some "t.tmpl".data, false⟩
        ⟨⟨0, 0⟩, ⟨0, 1⟩⟩ none (Val.str "not a dict".data) =
      ([], Outcome.uncaught)) :=
  ⟨(C10_template_dict_assert _ _ _ _ _ _ rfl).1 rfl,
   (C10_template_dict_assert _ _ _ _ _ _ rfl).2 rfl⟩

end Expand

namespace Expand

lemma editSafe_applyEdit (env : Env) (func : ExpFunc) (wr : KRange)
    (ar : Option KRange) (repl : Val) : EditSafe (applyEdit env func wr ar repl) := by
  constructor
  · intro h
    exact absurd rfl h
  · intro _
    cases ar with
    | none =>
      by_cases h : (func.use_template_iface && env.ti2) = true
      · exact ⟨[Effect.removeText wr, Effect.insertTemplateText wr.start repl],
          by simp [applyEdit, h], rfl⟩
      · exact ⟨[Effect.removeText wr, Effect.insertText wr.start repl],
          by simp [applyEdit, h], rfl⟩
    | some r =>
      by_cases h : (func.use_template_iface && env.ti2) = true
      · exact ⟨[Effect.removeText r, Effect.removeText wr,
            Effect.insertTemplateText wr.start repl],
          by simp [applyEdit, h], rfl⟩
      · exact ⟨[Effect.removeText r, Effect.removeText wr,
            Effect.insertText wr.start repl],
          by simp [applyEdit, h], rfl⟩

lemma editSafe_templateBranch (env : Env) (func : ExpFunc) (wr : KRange)
    (ar : Option KRange) (repl : Val) (tname : List Char) :
    EditSafe (templateBranch env func wr ar repl tname) := by
  unfold templateBranch
  split
  · exact ⟨fun _ => rfl, fun h => absurd h (by decide)⟩
  · dsimp only
    split_ifs with hb
    · exact ⟨fun _ => rfl, fun h => absurd h (by decide)⟩
    · split
      · exact ⟨fun _ => rfl, fun h => absurd h (by decide)⟩
      · exact editSafe_applyEdit env func wr ar _

lemma editSafe_afterInvoke (env : Env) (func : ExpFunc) (wr : KRange)
    (ar : Option KRange) (repl : Val) :
    EditSafe (afterInvoke env func wr ar repl) := by
  unfold afterInvoke
  split
  · split_ifs with hd
    · exact editSafe_templateBranch env func wr ar repl _
    · exact ⟨fun _ => rfl, fun h => absurd h (by decide)⟩
  · exact editSafe_applyEdit env func wr ar repl

/-- C1: every `expandAtCursor` run that does not complete — a parse
error while locating, an unresolved expansion name, an exception from
the callable, a missing template file, a template rendering error, or
any uncaught exception — performs no `removeText` and no `insertText`
at all; a completed run's effects are exactly one atomic-undo scope,
opened before any mutation, containing nothing but the buffer
mutations (deletes of the argument and word ranges, then the insert of
the replacement). -/
theorem C1_abort_leaves_buffer_unmodified (env : Env) :
    EditSafe (expandAtCursor env) := by
  unfold expandAtCursor
  dsimp only
  repeat' split
  all_goals
    first
      | exact editSafe_afterInvoke _ _ _ _ _
      | exact ⟨fun _ => rfl, fun h => absurd h (by decide)⟩

/-- C1 witness: an aborting run (unknown expansion name) has no edit
effects, and a completed run is exactly one atomic scope of edits. -/
theorem C1_witness :
    ((expandAtCursor
        ⟨["zz".data], ⟨0, 1⟩, fun _ => none, fun _ => none,
         fun _ _ _ => Except.error (), false⟩).1.filter Effect.isEdit = []) ∧
    (∃ mid,
      (expandAtCursor
        ⟨["foo".data], ⟨0, 1⟩,
         fun w => if w = "foo".data then
             some ⟨fun _ _ => some (Val.str "X".data), none, false⟩
           else none,
         fun _ => none, fun _ _ _ => Except.error (), false⟩).1 =
          Effect.beginAtomic :: mid ++ [Effect.endAtomic] ∧
        mid.all Effect.isEdit) :=
  ⟨(C1_abort_leaves_buffer_unmodified _).1 (by decide),
   (C1_abort_leaves_buffer_unmodified _).2 (by decide)⟩

end Expand

namespace Expand

lemma mpStepFn_fail_eof_iff (doc : Document) (opening closing : Char) (delta : Int)
    (cfg : MpConfig) :
    mpStepFn doc opening closing delta cfg = MpStep.fail ParseReason.endOfFile ↔
      ((mpProcess opening closing (doc.character cfg.pos) cfg.level cfg.state).2.2 = false ∧
       doc.character (mpAdvance cfg.pos delta) = none ∧
       doc.character (mpWrap doc cfg.pos delta) = none) := by
  rcases hp : mpProcess opening closing (doc.character cfg.pos) cfg.level cfg.state
    with ⟨l', s', f⟩
  cases f
  · simp only [mpStepFn, hp, Bool.false_eq_true, if_false]
    split_ifs with h1 h2
    · simp [h1, h2]
    · cases s' <;> simp [h1, h2]
    · simp [h1]
  · simp [mpStepFn, hp]

lemma mpStepFn_fail_quote_iff (doc : Document) (opening closing : Char) (delta : Int)
    (cfg : MpConfig) (q : Char) :
    mpStepFn doc opening closing delta cfg = MpStep.fail (ParseReason.endOfLine q) ↔
      ((mpProcess opening closing (doc.character cfg.pos) cfg.level cfg.state).2.2 = false ∧
       doc.character (mpAdvance cfg.pos delta) = none ∧
       doc.character (mpWrap doc cfg.pos delta) ≠ none ∧
       (mpProcess opening closing (doc.character cfg.pos) cfg.level cfg.state).2.1 = some q) := by
  rcases hp : mpProcess opening closing (doc.character cfg.pos) cfg.level cfg.state
    with ⟨l', s', f⟩
  cases f
  · simp only [mpStepFn, hp, Bool.false_eq_true, if_false]
    split_ifs with h1 h2
    · simp [h1, h2]
    · cases s' <;> simp [h1, h2]
    · simp [h1]
  · simp [mpStepFn, hp]

lemma mpLoop_error_from_step (doc : Document) (o c : Char) (d : Int) :
    ∀ (fuel : Nat) (cfg : MpConfig) (r : ParseReason),
      mpLoop doc o c d cfg fuel = some (Except.error r) →
      ∃ n cfg', mpIter doc o c d cfg n = some cfg' ∧
        mpStepFn doc o c d cfg' = MpStep.fail r
  | 0, cfg, r, h => by cases h
  | fuel + 1, cfg, r, h => by
    rcases hs : mpStepFn doc o c d cfg with p | c' | r'
    · rw [mpLoop, hs] at h
      cases h
    · rw [mpLoop, hs] at h
      obtain ⟨n, cfg', hi, hf⟩ := mpLoop_error_from_step doc o c d fuel c' r h
      refine ⟨n + 1, cfg', ?_, hf⟩
      rw [mpIter, hs]
      exact hi
    · rw [mpLoop, hs] at h
      obtain rfl : r' = r := by
        injection h with h'
        injection h'
      exact ⟨0, cfg, rfl, hs⟩

/-- C3 (amended): `matchingParenthesisPosition` raises `ParseError`
exactly at line wraps — a `ParseError` arises only from a loop step
(third conjunct), a step raises `end of file reached` precisely when
the advanced position holds no character and neither does the wrapped
position (which happens when the wrap runs past the last/first line of
the document, and also when the adjacent line is empty), it raises
`end of line reached while searching for <quote>` precisely when the
advanced position holds no character, the wrapped one does, and the
quote state after the current character is inside a quoted span; the
two reasons are distinct values, programmatically distinguishable. -/
theorem C3_parse_error_conditions :
    (∀ (doc : Document) (opening closing : Char) (delta : Int) (cfg : MpConfig),
      mpStepFn doc opening closing delta cfg = MpStep.fail ParseReason.endOfFile ↔
        ((mpProcess opening closing (doc.character cfg.pos) cfg.level cfg.state).2.2 = false ∧
         doc.character (mpAdvance cfg.pos delta) = none ∧
         doc.character (mpWrap doc cfg.pos delta) = none)) ∧
    (∀ (doc : Document) (opening closing : Char) (delta : Int) (cfg : MpConfig) (q : Char),
      mpStepFn doc opening closing delta cfg = MpStep.fail (ParseReason.endOfLine q) ↔
        ((mpProcess opening closing (doc.character cfg.pos) cfg.level cfg.state).2.2 = false ∧
         doc.character (mpAdvance cfg.pos delta) = none ∧
         doc.character (mpWrap doc cfg.pos delta) ≠ none ∧
         (mpProcess opening closing (doc.character cfg.pos) cfg.level cfg.state).2.1 = some q)) ∧
    (∀ (doc : Document) (o c : Char) (d : Int) (fuel : Nat) (cfg : MpConfig) (r : ParseReason),
      mpLoop doc o c d cfg fuel = some (Except.error r) →
      ∃ n cfg', mpIter doc o c d cfg n = some cfg' ∧
        mpStepFn doc o c d cfg' = MpStep.fail r) ∧
    (∀ q, ParseReason.endOfFile ≠ ParseReason.endOfLine q) := by
  refine ⟨mpStepFn_fail_eof_iff, mpStepFn_fail_quote_iff, ?_, by intro q h; cases h⟩
  intro doc o c d fuel cfg r h
  exact mpLoop_error_from_step doc o c d fuel cfg r h

/-- C3 witness: the error-origin implication applied to the scan of an
empty document, which fails with `end of file reached` in one step. -/
theorem C3_witness :
    ∃ n cfg', mpIter [] '(' ')' 1 ⟨⟨0, 0⟩, 0, none⟩ n = some cfg' ∧
      mpStepFn [] '(' ')' 1 cfg' = MpStep.fail ParseReason.endOfFile :=
  C3_parse_error_conditions.2.2.1 [] '(' ')' 1 1 ⟨⟨0, 0⟩, 0, none⟩
    ParseReason.endOfFile (by decide)

/-- C3 counterexample: scanning `("(a", "", ")x")` forward from the
`(` raises `end of file reached`, yet no visited configuration ever
runs past the last line of the document (the wrap lands on the empty
line 1, inside the document) and no line ends while inside a quoted
span — refuting the claim that those are the only raising
situations. -/
theorem C3_counterexample :
    matchingParenthesisPosition ["(a".data, "".data, ")x".data] ⟨0, 0⟩ '(' 20 =
      some (Except.error ParseReason.endOfFile) ∧
    ((mpTrace ["(a".data, "".data, ")x".data] '(' ')' 1 ⟨⟨0, 0⟩, 0, none⟩ 20).all
      (fun cfg =>
        !stepRanPastEnds ["(a".data, "".data, ")x".data] 1 cfg &&
        !stepEndsLineInQuote ["(a".data, "".data, ")x".data] '(' ')' 1 cfg)) = true := by
  exact ⟨by decide, by decide⟩

end Expand

namespace Expand

lemma character_neg_col (doc : Document) (l col : Int) (h : col < 0) :
    doc.character ⟨l, col⟩ = none := by
  unfold Document.character
  dsimp only
  rcases doc.lineAt l with _ | line
  · rfl
  · exact if_neg (by omega)

lemma character_some_elim (doc : Document) (p : Pos) (ch : Char)
    (h : doc.character p = some ch) :
    ∃ line, doc.lineAt p.line = some line ∧ 0 ≤ p.column ∧
      p.column.toNat < line.length := by
  unfold Document.character at h
  rcases hl : doc.lineAt p.line with _ | line
  · rw [hl] at h
    cases h
  · rw [hl] at h
    dsimp only at h
    split_ifs at h with hc
    · refine ⟨line, rfl, hc, ?_⟩
      by_contra hlen
      rw [List.get?_eq_none.mpr (le_of_not_lt hlen)] at h
      cases h

lemma advance_none_col (doc : Document) (p : Pos) (line : Line)
    (hl : doc.lineAt p.line = some line) (h0 : 0 ≤ p.column)
    (hn : doc.character (mpAdvance p 1) = none) :
    (line.length : Int) ≤ p.column + 1 := by
  unfold Document.character mpAdvance at hn
  dsimp only at hn
  rw [hl] at hn
  dsimp only at hn
  rw [if_pos (by omega : (0 : Int) ≤ p.column + 1)] at hn
  have := List.get?_eq_none.mp hn
  omega

lemma lineLength_of_lineAt (doc : Document) (l : Int) (line : Line)
    (hl : doc.lineAt l = some line) :
    doc.lineLength l = (line.length : Int) := by
  unfold Document.lineLength
  rw [hl]

lemma mpProcess_rev (ch : Char) (L : Int) (s : Option Char)
    (hs : s = none ∨ s = some '"' ∨ s = some '\'') :
    (mpProcess ')' '(' (some ch)
        (mpProcess '(' ')' (some ch) L s).1
        (mpProcess '(' ')' (some ch) L s).2.1).1 = L ∧
    (mpProcess ')' '(' (some ch)
        (mpProcess '(' ')' (some ch) L s).1
        (mpProcess '(' ')' (some ch) L s).2.1).2.1 = s := by
  rcases hs with rfl | rfl | rfl <;>
    by_cases h1 : ch = '(' <;> by_cases h2 : ch = ')' <;>
    by_cases h3 : ch = '"' <;> by_cases h4 : ch = '\'' <;>
    simp_all [mpProcess]

lemma mpProcess_state_inv (ch : Option Char) (L : Int) (s : Option Char)
    (hs : s = none ∨ s = some '"' ∨ s = some '\'') :
    (mpProcess '(' ')' ch L s).2.1 = none ∨
    (mpProcess '(' ')' ch L s).2.1 = some '"' ∨
    (mpProcess '(' ')' ch L s).2.1 = some '\'' := by
  rcases hs with rfl | rfl | rfl
  · unfold mpProcess
    dsimp only
    split_ifs with h1 h2 h3
    · left
      rfl
    · left
      rfl
    · rcases h3 with h | h
      · right
        left
        exact h
      · right
        right
        exact h
    · left
      rfl
  · unfold mpProcess
    dsimp only
    split_ifs
    · left
      rfl
    · right
      left
      rfl
  · unfold mpProcess
    dsimp only
    split_ifs
    · left
      rfl
    · right
      right
      rfl

lemma mpProcess_level_pos (ch : Char) (L : Int) (s : Option Char)
    (hL : 1 ≤ L ∨ (L = 0 ∧ ch = '(' ∧ s = none))
    (hnf : (mpProcess '(' ')' (some ch) L s).2.2 = false) :
    1 ≤ (mpProcess '(' ')' (some ch) L s).1 := by
  rcases s with _ | q
  · by_cases h1 : ch = '(' <;> by_cases h2 : ch = ')' <;>
      by_cases h3 : ch = '"' <;> by_cases h4 : ch = '\'' <;>
      simp_all [mpProcess] <;> omega
  · simp only [mpProcess] at *
    split_ifs at * <;> simp_all <;> omega

lemma mpProcessF_found (ch : Char) (L : Int) (s : Option Char)
    (h : (mpProcess '(' ')' (some ch) L s).2.2 = true) :
    ch = ')' ∧ s = none ∧ L - 1 = 0 ∧
    (mpProcess '(' ')' (some ch) L s).1 = 0 ∧
    (mpProcess '(' ')' (some ch) L s).2.1 = none := by
  rcases s with _ | q
  · by_cases h1 : ch = '(' <;> by_cases h2 : ch = ')' <;>
      by_cases h3 : ch = '"' <;> by_cases h4 : ch = '\'' <;>
      simp_all [mpProcess] <;> omega
  · by_cases hq : ch = q <;> simp [mpProcess, hq] at h

lemma mpProcessB_found_level (ch : Char) (L : Int) (s : Option Char)
    (h : (mpProcess ')' '(' (some ch) L s).2.2 = true) :
    (mpProcess ')' '(' (some ch) L s).1 = 0 := by
  rcases s with _ | q
  · by_cases h1 : ch = ')' <;> by_cases h2 : ch = '(' <;>
      by_cases h3 : ch = '"' <;> by_cases h4 : ch = '\'' <;>
      simp_all [mpProcess] <;> omega
  · by_cases hq : ch = q <;> simp [mpProcess, hq] at h

end Expand

namespace Expand

lemma mpStepFn_found_elim (doc : Document) (o c : Char) (d : Int)
    (cfg : MpConfig) (q : Pos)
    (h : mpStepFn doc o c d cfg = MpStep.found q) :
    (mpProcess o c (doc.character cfg.pos) cfg.level cfg.state).2.2 = true ∧
    q = (if c = ')' then mpAdvance cfg.pos d else cfg.pos) := by
  rcases hp : mpProcess o c (doc.character cfg.pos) cfg.level cfg.state with ⟨l', s', f⟩
  cases f
  · simp only [mpStepFn, hp, Bool.false_eq_true, if_false] at h
    split_ifs at h
    cases s' <;> cases h
  · simp only [mpStepFn, hp, if_true] at h
    refine ⟨rfl, ?_⟩
    injection h with h'
    exact h'.symm

lemma mpStepFn_next_elim (doc : Document) (o c : Char) (d : Int)
    (cfg : MpConfig) (c' : MpConfig)
    (h : mpStepFn doc o c d cfg = MpStep.next c') :
    (mpProcess o c (doc.character cfg.pos) cfg.level cfg.state).2.2 = false ∧
    c'.level = (mpProcess o c (doc.character cfg.pos) cfg.level cfg.state).1 ∧
    ((doc.character (mpAdvance cfg.pos d) ≠ none ∧
      c'.pos = mpAdvance cfg.pos d ∧
      c'.state = (mpProcess o c (doc.character cfg.pos) cfg.level cfg.state).2.1) ∨
     (doc.character (mpAdvance cfg.pos d) = none ∧
      doc.character (mpWrap doc cfg.pos d) ≠ none ∧
      (mpProcess o c (doc.character cfg.pos) cfg.level cfg.state).2.1 = none ∧
      c'.pos = mpWrap doc cfg.pos d ∧ c'.state = none)) := by
  rcases hp : mpProcess o c (doc.character cfg.pos) cfg.level cfg.state with ⟨l', s', f⟩
  cases f
  · simp only [mpStepFn, hp, Bool.false_eq_true, if_false] at h
    split_ifs at h with h1 h2
    · rcases s' with _ | qv
      · simp only [MpStep.next.injEq] at h
        subst h
        simp [hp, h1, h2]
      · cases h
    · simp only [MpStep.next.injEq] at h
      subst h
      simp [hp, h1]
  · simp only [mpStepFn, hp, if_true] at h
    cases h

lemma mpIter_snoc (doc : Document) (o c : Char) (d : Int) :
    ∀ (n : Nat) (cfg cfg' cfg'' : MpConfig),
      mpIter doc o c d cfg n = some cfg' →
      mpStepFn doc o c d cfg' = MpStep.next cfg'' →
      mpIter doc o c d cfg (n + 1) = some cfg''
  | 0, cfg, cfg', cfg'', h, hs => by
    injection h with h'
    subst h'
    simp only [mpIter, hs]
  | n + 1, cfg, cfg', cfg'', h, hs => by
    rcases hc : mpStepFn doc o c d cfg with p | cn | r
    · simp only [mpIter, hc] at h
      cases h
    · simp only [mpIter, hc] at h ⊢
      exact mpIter_snoc doc o c d n cn cfg' cfg'' h hs
    · simp only [mpIter, hc] at h
      cases h

lemma mpLoop_of_iter_found (doc : Document) (o c : Char) (d : Int) :
    ∀ (n : Nat) (cfg cfg' : MpConfig) (q : Pos) (fuel : Nat),
      mpIter doc o c d cfg n = some cfg' →
      mpStepFn doc o c d cfg' = MpStep.found q →
      n + 1 ≤ fuel →
      mpLoop doc o c d cfg fuel = some (Except.ok q)
  | 0, cfg, cfg', q, fuel, h, hf, hle => by
    injection h with h'
    subst h'
    obtain ⟨f, rfl⟩ : ∃ f, fuel = f + 1 := ⟨fuel - 1, by omega⟩
    rw [mpLoop, hf]
  | n + 1, cfg, cfg', q, fuel, h, hf, hle => by
    rcases hc : mpStepFn doc o c d cfg with p | cn | r
    · simp only [mpIter, hc] at h
      cases h
    · simp only [mpIter, hc] at h
      obtain ⟨f, rfl⟩ : ∃ f, fuel = f + 1 := ⟨fuel - 1, by omega⟩
      rw [mpLoop, hc]
      exact mpLoop_of_iter_found doc o c d n cn cfg' q f h hf (by omega)
    · simp only [mpIter, hc] at h
      cases h

end Expand

namespace Expand

lemma mpRev (doc : Document) :
    ∀ (fuel : Nat) (p : Pos) (ch : Char) (L : Int) (s : Option Char) (r : Pos),
      doc.character p = some ch →
      (s = none ∨ s = some '"' ∨ s = some '\'') →
      (1 ≤ L ∨ (L = 0 ∧ ch = '(' ∧ s = none)) →
      mpLoop doc '(' ')' 1 ⟨p, L, s⟩ fuel = some (Except.ok r) →
      doc.character ⟨r.line, r.column - 1⟩ = some ')' ∧
      ∃ n : Nat, n + 1 ≤ fuel ∧
        mpIter doc ')' '(' (-1) ⟨⟨r.line, r.column - 1⟩, 0, none⟩ n =
          some ⟨p, (mpProcess '(' ')' (some ch) L s).1,
                   (mpProcess '(' ')' (some ch) L s).2.1⟩
  | 0, p, ch, L, s, r, hch, hsinv, hL, hrun => by cases hrun
  | fuel + 1, p, ch, L, s, r, hch, hsinv, hL, hrun => by
    rcases hs : mpStepFn doc '(' ')' 1 ⟨p, L, s⟩ with q | c' | r'
    · -- the forward loop finds the match at this very step
      simp only [mpLoop, hs, Option.some.injEq, Except.ok.injEq] at hrun
      subst hrun
      obtain ⟨hflag, hq⟩ := mpStepFn_found_elim doc '(' ')' 1 ⟨p, L, s⟩ q hs
      dsimp only at hflag hq
      rw [hch] at hflag
      obtain ⟨hcr, hsn, hL1, hlev0, hst0⟩ := mpProcessF_found ch L s hflag
      rw [if_pos rfl] at hq
      subst hq
      have hclose : (⟨(mpAdvance p 1).line, (mpAdvance p 1).column - 1⟩ : Pos) = p := by
        unfold mpAdvance
        dsimp only
        rw [show p.column + 1 - 1 = p.column from by omega]
      constructor
      · rw [hclose, hch, hcr]
      · refine ⟨0, by omega, ?_⟩
        rw [hclose, hlev0, hst0]
        rfl
    · -- the forward loop continues: retrace the tail and extend
      simp only [mpLoop, hs] at hrun
      obtain ⟨hflag, hlev, hdisj⟩ := mpStepFn_next_elim doc '(' ')' 1 ⟨p, L, s⟩ c' hs
      dsimp only at hflag hlev hdisj
      rw [hch] at hflag hlev hdisj
      have hsinv' : c'.state = none ∨ c'.state = some '"' ∨ c'.state = some '\'' := by
        rcases hdisj with ⟨_, _, hst⟩ | ⟨_, _, _, _, hst⟩
        · rw [hst]
          exact mpProcess_state_inv (some ch) L s hsinv
        · rw [hst]
          left
          rfl
      have hlev' : 1 ≤ c'.level := by
        rw [hlev]
        exact mpProcess_level_pos ch L s hL hflag
      have hch1e : ∃ ch1, doc.character c'.pos = some ch1 := by
        rcases hdisj with ⟨hne, hpos, _⟩ | ⟨_, hne, _, hpos, _⟩
        · rw [hpos]
          exact Option.ne_none_iff_exists'.mp (by rw [← hpos]; rw [hpos]; exact hne)
        · rw [hpos]
          exact Option.ne_none_iff_exists'.mp (by rw [← hpos]; rw [hpos]; exact hne)
      obtain ⟨ch1, hch1⟩ := hch1e
      have hrun' : mpLoop doc '(' ')' 1 ⟨c'.pos, c'.level, c'.state⟩ fuel =
          some (Except.ok r) := hrun
      obtain ⟨hclose, n, hn, hiter⟩ :=
        mpRev doc fuel c'.pos ch1 c'.level c'.state r hch1 hsinv' (Or.inl hlev') hrun'
      obtain ⟨hr1, hr2⟩ := mpProcess_rev ch1 c'.level c'.state hsinv'
      have hnf : (mpProcess ')' '(' (some ch1)
          (mpProcess '(' ')' (some ch1) c'.level c'.state).1
          (mpProcess '(' ')' (some ch1) c'.level c'.state).2.1).2.2 = false := by
        cases hfb : (mpProcess ')' '(' (some ch1)
            (mpProcess '(' ')' (some ch1) c'.level c'.state).1
            (mpProcess '(' ')' (some ch1) c'.level c'.state).2.1).2.2
        · rfl
        · exfalso
          have h0 := mpProcessB_found_level ch1 _ _ hfb
          rw [hr1] at h0
          omega
      have hpB : mpProcess ')' '(' (some ch1)
          (mpProcess '(' ')' (some ch1) c'.level c'.state).1
          (mpProcess '(' ')' (some ch1) c'.level c'.state).2.1 =
          (c'.level, c'.state, false) := by
        rcases hx : mpProcess ')' '(' (some ch1)
            (mpProcess '(' ')' (some ch1) c'.level c'.state).1
            (mpProcess '(' ')' (some ch1) c'.level c'.state).2.1 with ⟨a, b, g⟩
        rw [hx] at hr1 hr2 hnf
        dsimp only at hr1 hr2 hnf
        rw [hr1, hr2, hnf]
      refine ⟨hclose, n + 1, by omega, ?_⟩
      rcases hdisj with ⟨hne, hpos, hst⟩ | ⟨hadv, hwne, hstnone, hpos, hst⟩
      · -- the forward step stayed within the line
        have hback : mpAdvance (mpAdvance p 1) (-1) = p := by
          unfold mpAdvance
          dsimp only
          rw [show p.column + 1 + -1 = p.column from by omega]
        have hstep : mpStepFn doc ')' '(' (-1)
            ⟨c'.pos, (mpProcess '(' ')' (some ch1) c'.level c'.state).1,
             (mpProcess '(' ')' (some ch1) c'.level c'.state).2.1⟩ =
            MpStep.next ⟨p, c'.level, c'.state⟩ := by
          unfold mpStepFn
          dsimp only
          rw [hch1, hpB]
          simp only [Bool.false_eq_true, if_false]
          rw [hpos, hback, hch]
          rw [if_neg (by simp)]
        have hfinal : (⟨p, c'.level, c'.state⟩ : MpConfig) =
            ⟨p, (mpProcess '(' ')' (some ch) L s).1,
              (mpProcess '(' ')' (some ch) L s).2.1⟩ := by
          rw [hlev, hst]
        exact mpIter_snoc doc ')' '(' (-1) n _ _ _ hiter (hstep.trans (congrArg _ hfinal))
      · -- the forward step wrapped to the next line
        obtain ⟨line, hl, h0, hlt⟩ := character_some_elim doc p ch hch
        have hlen := advance_none_col doc p line hl h0 hadv
        have hadvB : doc.character (mpAdvance (mpWrap doc p 1) (-1)) = none := by
          have hx : mpAdvance (mpWrap doc p 1) (-1) = ⟨p.line + 1, -1⟩ := by
            unfold mpWrap mpAdvance
            dsimp only
            rw [if_neg (by decide : ¬(1 : Int) = -1)]
            rw [show ((0 : Int) + -1) = -1 from by omega]
          rw [hx]
          exact character_neg_col doc _ _ (by omega)
        have hwB : mpWrap doc (mpWrap doc p 1) (-1) = p := by
          unfold mpWrap
          dsimp only
          rw [if_pos rfl]
          rw [show p.line + 1 + -1 = p.line from by omega]
          rw [lineLength_of_lineAt doc p.line line hl]
          rw [show (line.length : Int) - 1 = p.column from by omega]
        have hstep : mpStepFn doc ')' '(' (-1)
            ⟨c'.pos, (mpProcess '(' ')' (some ch1) c'.level c'.state).1,
             (mpProcess '(' ')' (some ch1) c'.level c'.state).2.1⟩ =
            MpStep.next ⟨p, c'.level, c'.state⟩ := by
          unfold mpStepFn
          dsimp only
          rw [hch1, hpB]
          simp only [Bool.false_eq_true, if_false]
          rw [hpos, if_pos hadvB, hwB, hch]
          rw [if_neg (by simp)]
          rw [hst]
        have hfinal : (⟨p, c'.level, c'.state⟩ : MpConfig) =
            ⟨p, (mpProcess '(' ')' (some ch) L s).1,
              (mpProcess '(' ')' (some ch) L s).2.1⟩ := by
          rw [hlev, hst, hstnone]
        exact mpIter_snoc doc ')' '(' (-1) n _ _ _ hiter (hstep.trans (congrArg _ hfinal))
    · simp only [mpLoop, hs] at hrun
      cases hrun

end Expand

namespace Expand

/-- C9 counterexample: on the document `["()"]`, the backward scan from
the close paren at `(0,1)` returns the open paren position `(0,0)`, but
the forward scan from the open paren returns `(0,2)` — one column past
the close paren — not the position `(0,1)` the backward scan started
from; so the two scans, as the claim states it, are not inverse
operations. -/
theorem C9_counterexample :
    matchingParenthesisPosition ["()".data] ⟨0, 0⟩ '(' 5 = some (Except.ok ⟨0, 2⟩) ∧
    matchingParenthesisPosition ["()".data] ⟨0, 1⟩ ')' 5 = some (Except.ok ⟨0, 0⟩) ∧
    Document.character ["()".data] ⟨0, 0⟩ = some '(' ∧
    Document.character ["()".data] ⟨0, 1⟩ = some ')' ∧
    (⟨0, 2⟩ : Pos) ≠ ⟨0, 1⟩ := by
  exact ⟨by decide, by decide, by decide, by decide, by decide⟩

/-- C9 (amended): for every buffer in which the forward scan from an
unquoted `(` succeeds, the two directions are inverse up to the
one-column offset the forward scan applies: the forward scan from the
open paren returns the position one column past the matching close
paren (which indeed holds `)`), and the backward scan started at that
close paren returns exactly the open paren's position. -/
theorem C9_scan_reversal (doc : Document) (p r : Pos) (fuel : Nat)
    (hch : doc.character p = some '(')
    (hrun : matchingParenthesisPosition doc p '(' fuel = some (Except.ok r)) :
    doc.character ⟨r.line, r.column - 1⟩ = some ')' ∧
    matchingParenthesisPosition doc ⟨r.line, r.column - 1⟩ ')' fuel =
      some (Except.ok p) := by
  have hrun' : mpLoop doc '(' ')' 1 ⟨p, 0, none⟩ fuel = some (Except.ok r) := by
    simpa [matchingParenthesisPosition] using hrun
  obtain ⟨hclose, n, hn, hiter⟩ :=
    mpRev doc fuel p '(' 0 none r hch (Or.inl rfl) (Or.inr ⟨rfl, rfl, rfl⟩) hrun'
  refine ⟨hclose, ?_⟩
  have hstepB : mpStepFn doc ')' '(' (-1)
      ⟨p, (mpProcess '(' ')' (some '(') 0 none).1,
       (mpProcess '(' ')' (some '(') 0 none).2.1⟩ = MpStep.found p := by
    unfold mpStepFn
    dsimp only
    rw [hch]
    rw [show mpProcess ')' '(' (some '(')
          (mpProcess '(' ')' (some '(') 0 none).1
          (mpProcess '(' ')' (some '(') 0 none).2.1 = (0, none, true) from by decide]
    rw [if_pos rfl, if_neg (by decide : ¬('(' = ')'))]
  have hloop := mpLoop_of_iter_found doc ')' '(' (-1) n _ _ p fuel hiter hstepB (by omega)
  simpa [matchingParenthesisPosition] using hloop

end Expand

namespace Expand

/-- C9 witness: the reversal theorem applied to the document `["()"]`,
forward scan from `(0,0)` returning `(0,2)`. -/
theorem C9_witness :
    Document.character ["()".data] ⟨0, (2 : Int) - 1⟩ = some ')' ∧
    matchingParenthesisPosition ["()".data] ⟨0, (2 : Int) - 1⟩ ')' 5 =
      some (Except.ok ⟨0, 0⟩) :=
  C9_scan_reversal ["()".data] ⟨0, 0⟩ ⟨0, 2⟩ 5 (by decide) (by decide)

end Expand
